import Mathlib

/-!
# TFWC: the window-management core of `TFWC.c`

A shallow embedding of the view registry, the hit test, the focus handling, the
move/resize request handlers and the render pass of `TFWC.c`, followed by
theorems about them.

Conventions of the embedding.

* A pointer to a `struct TFWCView` is a natural number (its address).  The
  server owns the memory `heap : Nat → TFWCView`; `server->views`, a `wl_list`
  of views, is the list of the addresses of its nodes, front first.
* A `struct wlr_surface *` is a natural number, `NULL` is `none`.
* A C `double` is a value of a type `D` with a subtraction and a conversion from
  `int` (for rendering also an addition and a multiplication, the conversion
  back to `int` being handed in); nothing else is assumed about it, so the
  results hold for whatever the floating-point operations compute.  Concrete
  evaluations take `D := ℤ`.
* A C `int` is an `Int`; the `int` additions of the file are in the resize
  request handler and in `renderWindow`, where C leaves overflow undefined.
* The display library (wlroots) is the collaborator.  Its queries
  (`wlr_xdg_surface_surface_at`, `wlr_xdg_surface_get_geometry`) are function
  parameters; the effect of its commands on the seat and on the toplevels is kept
  in the server value (`seat`, `activated`), and every command issued is
  appended to `calls`, so that the order of the commands can be stated.
-/

namespace TFWC

/-! ## Data model -/

/-- A `struct wlr_xdg_surface`: the xdg role object of the `wlr_surface` in
its field `surface`.  wlroots keeps the two in one-to-one correspondence. -/
structure wlr_xdg_surface where
  surface : Nat
deriving DecidableEq

/-- The collaborator's `wlr_xdg_surface_from_wlr_surface`: the xdg surface whose
`surface` field is the given surface. -/
def wlr_xdg_surface_from_wlr_surface (surface : Nat) : wlr_xdg_surface :=
  { surface := surface }

/-- A `struct wlr_box`. -/
structure wlr_box where
  x : Int
  y : Int
  width : Int
  height : Int
deriving DecidableEq

/-- The `struct TFWCView` of the source, without its list link, its listeners and
its back-pointer to the server. -/
structure TFWCView where
  xdgSurface : wlr_xdg_surface
  mapped : Bool
  x : Int
  y : Int
deriving DecidableEq

/-- A `struct wlr_cursor`: the position of the cursor in layout coordinates. -/
structure wlr_cursor (D : Type) where
  x : D
  y : D

/-- The `pointer_state` of the seat. -/
structure wlr_seat_pointer_state where
  focused_surface : Option Nat
deriving DecidableEq

/-- The `keyboard_state` of the seat. -/
structure wlr_seat_keyboard_state where
  focused_surface : Option Nat
deriving DecidableEq

/-- The part of `struct wlr_seat` the source reads. -/
structure wlr_seat where
  pointer_state : wlr_seat_pointer_state
  keyboard_state : wlr_seat_keyboard_state
deriving DecidableEq

/-- The commands the modelled handlers send to the collaborator. -/
inductive wlr_call (D : Type) where
  | xdg_toplevel_set_activated (surface : wlr_xdg_surface) (activated : Bool)
  | seat_keyboard_notify_enter (surface : Nat)
  | seat_pointer_notify_enter (surface : Nat) (sx sy : D)
  | seat_pointer_notify_motion (time : Nat) (sx sy : D)
  | seat_pointer_clear_focus
  | seat_pointer_notify_button (time button state : Nat)
  | xcursor_manager_set_cursor_image_left_ptr
  | output_attach_render (attached : Bool)
  | renderer_begin (width height : Int)
  | renderer_clear
  | xdg_surface_for_each_surface (surface : wlr_xdg_surface) (rdata_view : Nat)
  | render_texture_with_matrix (texture : Nat) (box : wlr_box) (transform : Nat)
  | surface_send_frame_done (surface : Nat)
  | output_render_software_cursors
  | renderer_end
  | output_commit
deriving DecidableEq

/-- Modelled from the spec: the fields `grabbed_view`, `grab_x`, `grab_y`,
`grab_geobox` and `resize_edges`, which the request handlers of the source
assign but `struct TFWCServer` does not declare; they are the target, the anchor
offsets, the captured geometry box and the edge mask of the spec's Grab State.
The other fields are those of the source (`views`, `cursor`, `seat`), the memory
of the views (`heap`), and the collaborator's state: which toplevels are in the
activated state, and the commands sent so far, oldest first. -/
structure TFWCServer (D : Type) where
  views : List Nat
  heap : Nat → TFWCView
  cursor : wlr_cursor D
  seat : wlr_seat
  grabbed_view : Option Nat
  grab_x : D
  grab_y : D
  grab_geobox : wlr_box
  resize_edges : Nat
  activated : wlr_xdg_surface → Bool
  calls : List (wlr_call D)

/-- The answer type of the geometry query `wlr_xdg_surface_surface_at`: nothing
(`NULL`), or the surface under the point with the surface-local coordinates. -/
abbrev SurfaceAt (D : Type) := wlr_xdg_surface → D → D → Option (Nat × D × D)

/-- What `renderScreen` and `renderWindow` read from the collaborator during one
frame of an output: whether `wlr_output_attach_render` succeeds, the effective
resolution of the output, the coordinates `wlr_output_layout_output_coords`
gives for the origin, the scale of the output, the surfaces
`wlr_xdg_surface_for_each_surface` visits for an xdg surface (each with its
offset `sx`, `sy`), the texture of a surface (`none` for `NULL`), the current
width, height and transform of a surface, `wlr_output_transform_invert`, and the
conversion of a `double` to an `int`. -/
structure render_env (D : Type) where
  attach_render : Bool
  effective_width : Int
  effective_height : Int
  output_x : D
  output_y : D
  scale : D
  surfaces : wlr_xdg_surface → List (Nat × Int × Int)
  get_texture : Nat → Option Nat
  current_width : Nat → Int
  current_height : Nat → Int
  current_transform : Nat → Nat
  transform_invert : Nat → Nat
  to_int : D → Int

section Core

variable {D : Type}

/-! ## Hit test -/

/-- The function `view_at`: the point translated by the position of the view is
handed to the geometry query; the out-parameters are written, and `true` is
returned, exactly when the query finds a surface. -/
def view_at [Sub D] [IntCast D] (surface_at : SurfaceAt D) (view : TFWCView) (lx ly : D) :
    Option (Nat × D × D) :=
  let view_sx := lx - (view.x : D)
  let view_sy := ly - (view.y : D)
  match surface_at view.xdgSurface view_sx view_sy with
  | some (_surface, _sx, _sy) => some (_surface, _sx, _sy)
  | none => none

/-- The loop of `desktop_view_at` over the list `server->views`. -/
def desktop_view_at_loop [Sub D] [IntCast D] (surface_at : SurfaceAt D)
    (heap : Nat → TFWCView) (lx ly : D) : List Nat → Option (Nat × Nat × D × D)
  | [] => none
  | view :: rest =>
    match view_at surface_at (heap view) lx ly with
    | some (surface, sx, sy) => some (view, surface, sx, sy)
    | none => desktop_view_at_loop surface_at heap lx ly rest

/-- The function `desktop_view_at`: the view under the point (its address), with
the surface and the surface-local coordinates written by `view_at`, or `none`
for `NULL`. -/
def desktop_view_at [Sub D] [IntCast D] (surface_at : SurfaceAt D) (server : TFWCServer D)
    (lx ly : D) : Option (Nat × Nat × D × D) :=
  desktop_view_at_loop surface_at server.heap lx ly server.views

/-! ## Commands of the collaborator -/

/-- The collaborator's `wlr_xdg_toplevel_set_activated`: the toplevel of the given
xdg surface takes the given activated state. -/
def wlr_xdg_toplevel_set_activated (server : TFWCServer D) (surface : wlr_xdg_surface)
    (activated : Bool) : TFWCServer D :=
  { server with
    activated := fun s => if s = surface then activated else server.activated s
    calls := server.calls ++ [wlr_call.xdg_toplevel_set_activated surface activated] }

/-- The collaborator's `wlr_seat_keyboard_notify_enter`: the surface becomes the
keyboard-focused surface of the seat.  (The keycodes and modifiers sent along
are not modelled; the seat is taken to have a keyboard.) -/
def wlr_seat_keyboard_notify_enter (server : TFWCServer D) (surface : Nat) : TFWCServer D :=
  { server with
    seat := { server.seat with keyboard_state := { focused_surface := some surface } }
    calls := server.calls ++ [wlr_call.seat_keyboard_notify_enter surface] }

/-- The collaborator's `wlr_seat_pointer_notify_enter`: the surface becomes the
pointer-focused surface of the seat. -/
def wlr_seat_pointer_notify_enter (server : TFWCServer D) (surface : Nat) (sx sy : D) :
    TFWCServer D :=
  { server with
    seat := { server.seat with pointer_state := { focused_surface := some surface } }
    calls := server.calls ++ [wlr_call.seat_pointer_notify_enter surface sx sy] }

/-- The collaborator's `wlr_seat_pointer_notify_motion`. -/
def wlr_seat_pointer_notify_motion (server : TFWCServer D) (time : Nat) (sx sy : D) :
    TFWCServer D :=
  { server with calls := server.calls ++ [wlr_call.seat_pointer_notify_motion time sx sy] }

/-- The collaborator's `wlr_seat_pointer_clear_focus`: no surface has the pointer
focus of the seat. -/
def wlr_seat_pointer_clear_focus (server : TFWCServer D) : TFWCServer D :=
  { server with
    seat := { server.seat with pointer_state := { focused_surface := none } }
    calls := server.calls ++ [wlr_call.seat_pointer_clear_focus] }

/-- The collaborator's `wlr_seat_pointer_notify_button`. -/
def wlr_seat_pointer_notify_button (server : TFWCServer D) (time button state : Nat) :
    TFWCServer D :=
  { server with calls := server.calls ++ [wlr_call.seat_pointer_notify_button time button state] }

/-- The collaborator's `wlr_xcursor_manager_set_cursor_image`, called with the
name `left_ptr`. -/
def wlr_xcursor_manager_set_cursor_image_left_ptr (server : TFWCServer D) : TFWCServer D :=
  { server with calls := server.calls ++ [wlr_call.xcursor_manager_set_cursor_image_left_ptr] }

/-! ## Focus -/

/-- The function `focus_view`.  `view` is the view pointer (`none` for `NULL`),
`surface` the surface pointer. -/
def focus_view (server : TFWCServer D) (view : Option Nat) (surface : Option Nat) :
    TFWCServer D :=
  match view with
  | none => server
  | some view =>
    let prev_surface := server.seat.keyboard_state.focused_surface
    if prev_surface = surface then server
    else
      -- deactivate previous window
      let server :=
        match prev_surface with
        | some prev =>
          wlr_xdg_toplevel_set_activated server (wlr_xdg_surface_from_wlr_surface prev) false
        | none => server
      -- move the window to the top: `wl_list_remove`, then `wl_list_insert` at the head
      let server := { server with views := view :: server.views.erase view }
      -- activate new surface
      let server := wlr_xdg_toplevel_set_activated server (server.heap view).xdgSurface true
      wlr_seat_keyboard_notify_enter server (server.heap view).xdgSurface.surface

/-! ## Pointer -/

/-- The function `processCursorMotion`, run after the collaborator has updated
the cursor position. -/
def processCursorMotion [Sub D] [IntCast D] (surface_at : SurfaceAt D) (server : TFWCServer D)
    (time : Nat) : TFWCServer D :=
  let hit := desktop_view_at surface_at server server.cursor.x server.cursor.y
  let server :=
    match hit with
    | none => wlr_xcursor_manager_set_cursor_image_left_ptr server
    | some _ => server
  match hit with
  | some (_, surface, sx, sy) =>
    wlr_seat_pointer_notify_motion (wlr_seat_pointer_notify_enter server surface sx sy) time sx sy
  | none => wlr_seat_pointer_clear_focus server

/-- The handler `serverCursorMotion`.  `moved` is the cursor as `wlr_cursor_move`
leaves it after the relative motion of the event. -/
def serverCursorMotion [Sub D] [IntCast D] (surface_at : SurfaceAt D) (server : TFWCServer D)
    (moved : wlr_cursor D) (time_msec : Nat) : TFWCServer D :=
  processCursorMotion surface_at { server with cursor := moved } time_msec

/-- The handler `serverCursorMotionAbsolute`.  `warped` is the cursor as
`wlr_cursor_warp_absolute` leaves it for the absolute position of the event. -/
def serverCursorMotionAbsolute [Sub D] [IntCast D] (surface_at : SurfaceAt D)
    (server : TFWCServer D) (warped : wlr_cursor D) (time_msec : Nat) : TFWCServer D :=
  processCursorMotion surface_at { server with cursor := warped } time_msec

/-- The handler `serverCursorButton`.  When the hit test finds no view the
variable `surface` of the source is left unset; `focus_view` does not read it
then, and it is passed as `none`. -/
def serverCursorButton [Sub D] [IntCast D] (surface_at : SurfaceAt D) (server : TFWCServer D)
    (time_msec button state : Nat) : TFWCServer D :=
  let server := wlr_seat_pointer_notify_button server time_msec button state
  match desktop_view_at surface_at server server.cursor.x server.cursor.y with
  | some (view, surface, _, _) => focus_view server (some view) (some surface)
  | none => focus_view server none none

/-! ## View lifecycle -/

/-- The setter `setWindowPosition` of the source (no function of the source
calls it). -/
def setWindowPosition (server : TFWCServer D) (view : Nat) (x y : Int) : TFWCServer D :=
  { server with
    heap := fun a => if a = view then { server.heap a with x := x, y := y } else server.heap a }

/-- The handler `xdgUnHideWindow`. -/
def xdgUnHideWindow (server : TFWCServer D) (view : Nat) : TFWCServer D :=
  { server with
    heap := fun a => if a = view then { server.heap a with mapped := true } else server.heap a }

/-- The handler `xdgHideWindow`. -/
def xdgHideWindow (server : TFWCServer D) (view : Nat) : TFWCServer D :=
  { server with
    heap := fun a => if a = view then { server.heap a with mapped := false } else server.heap a }

/-- The handler `xdgDestroyWindow`: the view leaves the list and its memory is
freed; nothing else of the server is written. -/
def xdgDestroyWindow (server : TFWCServer D) (view : Nat) : TFWCServer D :=
  { server with views := server.views.erase view }

/-- The handler `serverNewWindow`.  `toplevel` tells whether the role of the xdg
surface is `WLR_XDG_SURFACE_ROLE_TOPLEVEL`; `view` is the address `calloc`
returns, the memory there being zeroed. -/
def serverNewWindow (server : TFWCServer D) (xdgSurface : wlr_xdg_surface) (toplevel : Bool)
    (view : Nat) : TFWCServer D :=
  if toplevel = false then server
  else
    { server with
      heap := fun a =>
        if a = view then { xdgSurface := xdgSurface, mapped := false, x := 0, y := 0 }
        else server.heap a
      views := view :: server.views }

/-! ## Grab requests -/

/-- The edge bit `WLR_EDGE_BOTTOM` of the collaborator's `enum wlr_edges`. -/
def WLR_EDGE_BOTTOM : Nat := 2

/-- The edge bit `WLR_EDGE_RIGHT` of the collaborator's `enum wlr_edges`. -/
def WLR_EDGE_RIGHT : Nat := 8

/-- The handler `xdgHandleToplevelMoveRequest`, for the view at address `view`. -/
def xdgHandleToplevelMoveRequest [Sub D] [IntCast D] (server : TFWCServer D) (view : Nat) :
    TFWCServer D :=
  let focused_surface := server.seat.pointer_state.focused_surface
  if some (server.heap view).xdgSurface.surface ≠ focused_surface then server
  else
    { server with
      grabbed_view := some view
      grab_x := server.cursor.x - ((server.heap view).x : D)
      grab_y := server.cursor.y - ((server.heap view).y : D) }

/-- The handler `xdgHandleToplevelResizeRequest`, for the view at address `view`.
`edges` is the edge mask of the resize event (the source names it `edges`
without declaring it); `get_geometry` is the collaborator's
`wlr_xdg_surface_get_geometry`. -/
def xdgHandleToplevelResizeRequest [Sub D] [IntCast D]
    (get_geometry : wlr_xdg_surface → wlr_box) (server : TFWCServer D) (view : Nat)
    (edges : Nat) : TFWCServer D :=
  let focused_surface := server.seat.pointer_state.focused_surface
  if some (server.heap view).xdgSurface.surface ≠ focused_surface then server
  else
    let geo_box := get_geometry (server.heap view).xdgSurface
    let border_x : Int :=
      ((server.heap view).x + geo_box.x)
        + (if edges &&& WLR_EDGE_RIGHT ≠ 0 then geo_box.width else 0)
    let border_y : Int :=
      ((server.heap view).y + geo_box.y)
        + (if edges &&& WLR_EDGE_BOTTOM ≠ 0 then geo_box.height else 0)
    { server with
      grabbed_view := some view
      grab_x := server.cursor.x - (border_x : D)
      grab_y := server.cursor.y - (border_y : D)
      grab_geobox :=
        { geo_box with
          x := geo_box.x + (server.heap view).x
          y := geo_box.y + (server.heap view).y }
      resize_edges := edges }

/-! ## Rendering -/

/-- The callback `renderWindow`, for the view of the render data and one of its
surfaces with its offset `sx`, `sy`: nothing for a surface without texture;
otherwise the box of the surface on the output is computed from the output
coordinates, the position of the view, the offset and the scale, the texture is
rendered with the matrix the collaborator projects from this box and the
inverted transform, and the frame-done event is sent to the surface. -/
def renderWindow [Add D] [Mul D] [IntCast D] (env : render_env D) (server : TFWCServer D)
    (view surface : Nat) (sx sy : Int) : TFWCServer D :=
  match env.get_texture surface with
  | none => server
  | some texture =>
    let ox : D := env.output_x + (((server.heap view).x + sx : Int) : D)
    let oy : D := env.output_y + (((server.heap view).y + sy : Int) : D)
    let box : wlr_box :=
      { x := env.to_int (ox * env.scale)
        y := env.to_int (oy * env.scale)
        width := env.to_int ((env.current_width surface : D) * env.scale)
        height := env.to_int ((env.current_height surface : D) * env.scale) }
    let transform := env.transform_invert (env.current_transform surface)
    let server :=
      { server with
        calls := server.calls ++ [wlr_call.render_texture_with_matrix texture box transform] }
    { server with calls := server.calls ++ [wlr_call.surface_send_frame_done surface] }

/-- The visits of `wlr_xdg_surface_for_each_surface`, each calling `renderWindow`. -/
def for_each_surface_loop [Add D] [Mul D] [IntCast D] (env : render_env D) (view : Nat) :
    TFWCServer D → List (Nat × Int × Int) → TFWCServer D
  | server, [] => server
  | server, (surface, sx, sy) :: rest =>
    for_each_surface_loop env view (renderWindow env server view surface sx sy) rest

/-- The call `wlr_xdg_surface_for_each_surface(view->xdgSurface, renderWindow, &rdata)`
of the render loop, `rdata` naming the view. -/
def wlr_xdg_surface_for_each_surface [Add D] [Mul D] [IntCast D] (env : render_env D)
    (server : TFWCServer D) (view : Nat) : TFWCServer D :=
  for_each_surface_loop env view
    { server with
      calls := server.calls ++
        [wlr_call.xdg_surface_for_each_surface (server.heap view).xdgSurface view] }
    (env.surfaces (server.heap view).xdgSurface)

/-- The loop of `renderScreen` over the views it is handed, in that order. -/
def renderScreen_loop [Add D] [Mul D] [IntCast D] (env : render_env D) :
    TFWCServer D → List Nat → TFWCServer D
  | server, [] => server
  | server, view :: rest =>
    if !(server.heap view).mapped then renderScreen_loop env server rest
    else renderScreen_loop env (wlr_xdg_surface_for_each_surface env server view) rest

/-- The handler `renderScreen` of an output of the server.  The loop
`wl_list_for_each_reverse` runs over `server->views` from its last node to its
first.  (The time stamp and the colour of the background are not modelled.) -/
def renderScreen [Add D] [Mul D] [IntCast D] (env : render_env D) (server : TFWCServer D) :
    TFWCServer D :=
  let server :=
    { server with calls := server.calls ++ [wlr_call.output_attach_render env.attach_render] }
  if !env.attach_render then server
  else
    let server :=
      { server with
        calls := server.calls ++
          [wlr_call.renderer_begin env.effective_width env.effective_height,
           wlr_call.renderer_clear] }
    let server := renderScreen_loop env server server.views.reverse
    { server with
      calls := server.calls ++
        [wlr_call.output_render_software_cursors, wlr_call.renderer_end,
         wlr_call.output_commit] }

/-- The views named in the render data of the calls of
`wlr_xdg_surface_for_each_surface` in a record of commands, in the order of the
calls: the views submitted for drawing. -/
def submitted_views : List (wlr_call D) → List Nat
  | [] => []
  | wlr_call.xdg_surface_for_each_surface _ view :: rest => view :: submitted_views rest
  | _ :: rest => submitted_views rest

end Core

/-! ## Sequences of calls -/

section Runs

variable {D : Type}

/-- A sequence of raise calls: `focus_view` on each view of the list in turn,
each with the surface of its own xdg surface. -/
def raise_sequence (server : TFWCServer D) : List Nat → TFWCServer D
  | [] => server
  | view :: rest =>
    raise_sequence (focus_view server (some view) (some (server.heap view).xdgSurface.surface)) rest

/-- A sequence of `focus_view` calls with arbitrary arguments (a view pointer or
`NULL`, a surface pointer or `NULL`). -/
def focus_sequence (server : TFWCServer D) : List (Option Nat × Option Nat) → TFWCServer D
  | [] => server
  | (view, surface) :: rest => focus_sequence (focus_view server view surface) rest

/-- The state of the registry and of the keyboard focus that the raise calls
keep once one of them has raised a view: the views of the registry have pairwise
different xdg surfaces, and if the keyboard-focused surface is the surface of a
view of the registry, that view is at the front. -/
def focus_at_front (server : TFWCServer D) : Prop :=
  (∀ a ∈ server.views, ∀ b ∈ server.views,
    (server.heap a).xdgSurface = (server.heap b).xdgSurface → a = b) ∧
  (∀ v ∈ server.views,
    server.seat.keyboard_state.focused_surface = some (server.heap v).xdgSurface.surface →
      server.views.head? = some v)

end Runs

/-! ## Concrete collaborators for the examples -/

/-- A geometry query for the examples: every xdg surface is a square of side
100 whose own surface accepts input everywhere on it, and the local coordinates
are the coordinates handed in. -/
def square_surface_at : SurfaceAt ℤ := fun xdg sx sy =>
  if 0 ≤ sx ∧ sx < 100 ∧ 0 ≤ sy ∧ sy < 100 then some (xdg.surface, sx, sy) else none

/-- A geometry-box query for the examples: the box of every xdg surface is the
square of side 100 at the origin of the surface. -/
def square_get_geometry : wlr_xdg_surface → wlr_box := fun _ =>
  { x := 0, y := 0, width := 100, height := 100 }

/-- A server with no view, no focus, no grab and the cursor at the origin; the
memory holds zeroed views. -/
def server0 : TFWCServer ℤ :=
  { views := []
    heap := fun _ => { xdgSurface := { surface := 0 }, mapped := false, x := 0, y := 0 }
    cursor := { x := 0, y := 0 }
    seat := { pointer_state := { focused_surface := none },
              keyboard_state := { focused_surface := none } }
    grabbed_view := none
    grab_x := 0
    grab_y := 0
    grab_geobox := { x := 0, y := 0, width := 0, height := 0 }
    resize_edges := 0
    activated := fun _ => false
    calls := [] }

/-- Two mapped views: view 1 (xdg surface 11) in front at (0,0), view 2 (xdg
surface 12) behind it at (50,50). -/
def server_overlap : TFWCServer ℤ :=
  { server0 with
    views := [1, 2]
    heap := fun a =>
      if a = 1 then { xdgSurface := { surface := 11 }, mapped := true, x := 0, y := 0 }
      else if a = 2 then { xdgSurface := { surface := 12 }, mapped := true, x := 50, y := 50 }
      else server0.heap a }

/-- A window is created at address 1 for xdg surface 11, mapped, and unmapped
again. -/
def server_hidden : TFWCServer ℤ :=
  xdgHideWindow (xdgUnHideWindow (serverNewWindow server0 { surface := 11 } true 1) 1) 1

/-- A window is created at address 1 for xdg surface 11 and mapped; then a
window is created at address 2 for xdg surface 12, which is not mapped yet. -/
def server_hidden_front : TFWCServer ℤ :=
  serverNewWindow (xdgUnHideWindow (serverNewWindow server0 { surface := 11 } true 1) 1)
    { surface := 12 } true 2

/-- A window is created at address 1 for xdg surface 11 and given the keyboard
focus by `focus_view`; then a window is created at address 2 for xdg surface 12,
which `serverNewWindow` puts in front of it. -/
def server_focus_behind : TFWCServer ℤ :=
  serverNewWindow
    (focus_view (serverNewWindow server0 { surface := 11 } true 1) (some 1) (some 11))
    { surface := 12 } true 2

/-- A window is created at address 1 for xdg surface 11 and mapped, the cursor
being at (500,500), away from it; then `focus_view` gives it the keyboard
focus. -/
def server_focused : TFWCServer ℤ :=
  focus_view
    (xdgUnHideWindow
      (serverNewWindow { server0 with cursor := { x := 500, y := 500 } } { surface := 11 } true 1)
      1)
    (some 1) (some 11)

/-- The views of `server_overlap` after a pointer motion to (50,50): the hit
test finds view 1, whose surface 11 takes the pointer focus. -/
def server_pointer_on_1 : TFWCServer ℤ :=
  serverCursorMotionAbsolute square_surface_at server_overlap { x := 50, y := 50 } 0

/-- The views of `server_overlap` after a pointer motion to (120,120): the hit
test finds view 2, whose surface 12 takes the pointer focus. -/
def server_pointer_on_2 : TFWCServer ℤ :=
  serverCursorMotionAbsolute square_surface_at server_overlap { x := 120, y := 120 } 0

/-- In `server_pointer_on_1`, view 1 asks for a move: a grab on view 1 with the
anchor (50,50). -/
def server_move_grab : TFWCServer ℤ :=
  xdgHandleToplevelMoveRequest server_pointer_on_1 1

/-- In `server_pointer_on_1`, view 1 asks for a resize by its right and bottom
edges: a grab on view 1 with the anchor (-50,-50), the box (0,0,100,100) and the
edges 10. -/
def server_resize_grab : TFWCServer ℤ :=
  xdgHandleToplevelResizeRequest square_get_geometry server_pointer_on_1 1
    (WLR_EDGE_RIGHT ||| WLR_EDGE_BOTTOM)

/-- A frame for the examples: the render buffer is attached, the output is
800 by 600 at the origin of the layout with scale 1, every xdg surface has its
own surface only, with a texture, of width and height 100 and the normal
transform. -/
def square_render_env : render_env ℤ :=
  { attach_render := true
    effective_width := 800
    effective_height := 600
    output_x := 0
    output_y := 0
    scale := 1
    surfaces := fun xdg => [(xdg.surface, 0, 0)]
    get_texture := fun surface => some surface
    current_width := fun _ => 100
    current_height := fun _ => 100
    current_transform := fun _ => 0
    transform_invert := fun t => t
    to_int := fun d => d }

/-! ## Lemmas on the hit test -/

section HitTest

variable {D : Type}

theorem view_at_eq [Sub D] [IntCast D] (surface_at : SurfaceAt D) (view : TFWCView) (lx ly : D) :
    view_at surface_at view lx ly
      = surface_at view.xdgSurface (lx - (view.x : D)) (ly - (view.y : D)) := by
  unfold view_at
  cases h : surface_at view.xdgSurface (lx - (view.x : D)) (ly - (view.y : D)) with
  | none => simp only [h]
  | some r => simp only [h]

theorem loop_eq_none_iff [Sub D] [IntCast D] (surface_at : SurfaceAt D)
    (heap : Nat → TFWCView) (lx ly : D) (views : List Nat) :
    desktop_view_at_loop surface_at heap lx ly views = none ↔
      ∀ u ∈ views, view_at surface_at (heap u) lx ly = none := by
  induction views with
  | nil => simp [desktop_view_at_loop]
  | cons v rest ih =>
    unfold desktop_view_at_loop
    cases h : view_at surface_at (heap v) lx ly with
    | none => simp [h, ih]
    | some r => simp [h]

theorem loop_eq_some_iff [Sub D] [IntCast D] (surface_at : SurfaceAt D)
    (heap : Nat → TFWCView) (lx ly : D) (views : List Nat) (view surface : Nat) (sx sy : D) :
    desktop_view_at_loop surface_at heap lx ly views = some (view, surface, sx, sy) ↔
      ∃ front back, views = front ++ view :: back ∧
        (∀ u ∈ front, view_at surface_at (heap u) lx ly = none) ∧
        view_at surface_at (heap view) lx ly = some (surface, sx, sy) := by
  induction views with
  | nil => simp [desktop_view_at_loop]
  | cons v rest ih =>
    unfold desktop_view_at_loop
    cases h : view_at surface_at (heap v) lx ly with
    | none =>
      simp only [ih]
      constructor
      · rintro ⟨front, back, hsplit, hfront, hview⟩
        refine ⟨v :: front, back, by simp [hsplit], ?_, hview⟩
        intro u hu
        rcases List.mem_cons.mp hu with rfl | hu
        · exact h
        · exact hfront u hu
      · rintro ⟨front, back, hsplit, hfront, hview⟩
        cases front with
        | nil =>
          simp only [List.nil_append, List.cons.injEq] at hsplit
          rw [← hsplit.1, h] at hview
          exact absurd hview (by simp)
        | cons w front =>
          simp only [List.cons_append, List.cons.injEq] at hsplit
          exact ⟨front, back, hsplit.2, fun u hu => hfront u (List.mem_cons_of_mem _ hu), hview⟩
    | some r =>
      obtain ⟨surface0, sx0, sy0⟩ := r
      constructor
      · intro heq
        simp only [Option.some.injEq, Prod.mk.injEq] at heq
        obtain ⟨rfl, rfl, rfl, rfl⟩ := heq
        exact ⟨[], rest, rfl, by simp, h⟩
      · rintro ⟨front, back, hsplit, hfront, hview⟩
        cases front with
        | nil =>
          simp only [List.nil_append, List.cons.injEq] at hsplit
          rw [← hsplit.1, h] at hview
          simp only [Option.some.injEq, Prod.mk.injEq] at hview
          obtain ⟨rfl, rfl, rfl⟩ := hview
          rw [hsplit.1]
        | cons w front =>
          simp only [List.cons_append, List.cons.injEq] at hsplit
          have := hfront w (List.mem_cons_self _ _)
          rw [← hsplit.1, h] at this
          exact absurd this (by simp)

end HitTest

/-! ## Theorems -/

section Claims

variable {D : Type}

/-- C1: the hit test `desktop_view_at` answers with a view, a surface and local
coordinates exactly when that view is the first of the registry, front first,
for which the geometry query, asked at the point translated by the position of
the view, finds a surface, and these are the surface and the coordinates the
query gave for it; it answers with no view exactly when the query finds nothing
for every view of the registry.  For a registry of two views `A` (in front) and
`B`: a point in both goes to `A`, a point only in `B` goes to `B`, a point in
neither goes to no view. -/
theorem desktop_view_at_first_match [Sub D] [IntCast D] (surface_at : SurfaceAt D)
    (server : TFWCServer D) (lx ly : D) :
    (∀ view surface sx sy,
      desktop_view_at surface_at server lx ly = some (view, surface, sx, sy) ↔
        ∃ front back, server.views = front ++ view :: back ∧
          (∀ u ∈ front,
            surface_at (server.heap u).xdgSurface (lx - ((server.heap u).x : D))
              (ly - ((server.heap u).y : D)) = none) ∧
          surface_at (server.heap view).xdgSurface (lx - ((server.heap view).x : D))
            (ly - ((server.heap view).y : D)) = some (surface, sx, sy)) ∧
    (desktop_view_at surface_at server lx ly = none ↔
      ∀ u ∈ server.views,
        surface_at (server.heap u).xdgSurface (lx - ((server.heap u).x : D))
          (ly - ((server.heap u).y : D)) = none) ∧
    (∀ A B ra rb, server.views = [A, B] →
      (surface_at (server.heap A).xdgSurface (lx - ((server.heap A).x : D))
          (ly - ((server.heap A).y : D)) = some ra →
        surface_at (server.heap B).xdgSurface (lx - ((server.heap B).x : D))
          (ly - ((server.heap B).y : D)) = some rb →
        desktop_view_at surface_at server lx ly = some (A, ra)) ∧
      (surface_at (server.heap A).xdgSurface (lx - ((server.heap A).x : D))
          (ly - ((server.heap A).y : D)) = none →
        surface_at (server.heap B).xdgSurface (lx - ((server.heap B).x : D))
          (ly - ((server.heap B).y : D)) = some rb →
        desktop_view_at surface_at server lx ly = some (B, rb)) ∧
      (surface_at (server.heap A).xdgSurface (lx - ((server.heap A).x : D))
          (ly - ((server.heap A).y : D)) = none →
        surface_at (server.heap B).xdgSurface (lx - ((server.heap B).x : D))
          (ly - ((server.heap B).y : D)) = none →
        desktop_view_at surface_at server lx ly = none)) := by
  refine ⟨?_, ?_, ?_⟩
  · intro view surface sx sy
    simp only [desktop_view_at, loop_eq_some_iff, view_at_eq]
  · simp only [desktop_view_at, loop_eq_none_iff, view_at_eq]
  · intro A B ra rb hviews
    simp only [desktop_view_at, hviews, desktop_view_at_loop, view_at_eq]
    refine ⟨?_, ?_, ?_⟩
    · intro ha _
      rw [ha]
    · intro ha hb
      rw [ha, hb]
    · intro ha hb
      rw [ha, hb]

/-- C1, an instance: in `server_overlap` the point (60,60) lies in both views
and goes to view 1, the front one, with the local coordinates (60,60). -/
theorem desktop_view_at_first_match_witness :
    server_overlap.views = [1, 2] ∧
    desktop_view_at square_surface_at server_overlap 60 60 = some (1, 11, 60, 60) :=
  ⟨rfl, ((desktop_view_at_first_match square_surface_at server_overlap 60 60).2.2
      1 2 (11, 60, 60) (12, 10, 10) rfl).1 (by decide) (by decide)⟩

/-- C2, the code at the failing inputs: the view of `server_hidden` has
`mapped = false` and the hit test at (10,10) returns it; in
`server_hidden_front` the unmapped view 2 is in front of the mapped view 1 and
the hit test at (10,10) returns view 2. -/
theorem desktop_view_at_returns_unmapped :
    (server_hidden.heap 1).mapped = false ∧
    desktop_view_at square_surface_at server_hidden 10 10 = some (1, 11, 10, 10) ∧
    server_hidden_front.views = [2, 1] ∧
    (server_hidden_front.heap 2).mapped = false ∧
    (server_hidden_front.heap 1).mapped = true ∧
    desktop_view_at square_surface_at server_hidden_front 10 10 = some (2, 12, 10, 10) := by
  decide

/-! ### Raising -/

theorem focus_view_heap (server : TFWCServer D) (view surface : Option Nat) :
    (focus_view server view surface).heap = server.heap := by
  unfold focus_view
  cases view with
  | none => rfl
  | some v =>
    simp only
    split
    · rfl
    · cases server.seat.keyboard_state.focused_surface <;> rfl

theorem focus_view_views (server : TFWCServer D) (v : Nat) (surface : Option Nat) :
    (focus_view server (some v) surface).views =
      if server.seat.keyboard_state.focused_surface = surface then server.views
      else v :: server.views.erase v := by
  unfold focus_view
  simp only
  split
  · rfl
  · cases server.seat.keyboard_state.focused_surface <;> rfl

theorem focus_view_focus (server : TFWCServer D) (v : Nat) (surface : Option Nat) :
    (focus_view server (some v) surface).seat.keyboard_state.focused_surface =
      if server.seat.keyboard_state.focused_surface = surface then surface
      else some (server.heap v).xdgSurface.surface := by
  unfold focus_view
  simp only
  split
  · assumption
  · cases server.seat.keyboard_state.focused_surface <;> rfl

/-- A raise call on a view whose surface has the keyboard focus returns at the
guard: the server is as before. -/
theorem raise_guard (server : TFWCServer D) (v : Nat)
    (hfoc : server.seat.keyboard_state.focused_surface
      = some (server.heap v).xdgSurface.surface) :
    focus_view server (some v) (some (server.heap v).xdgSurface.surface) = server := by
  unfold focus_view
  simp only [hfoc, if_true]

/-- A raise call on a view of the registry whose surface does not have the
keyboard focus, the views having pairwise different xdg surfaces: the view is at
the front, the others keep their order, and the state is in `focus_at_front`. -/
theorem raise_effective (server : TFWCServer D) (v : Nat)
    (hinj : ∀ a ∈ server.views, ∀ b ∈ server.views,
      (server.heap a).xdgSurface = (server.heap b).xdgSurface → a = b)
    (hv : v ∈ server.views)
    (hfoc : server.seat.keyboard_state.focused_surface
      ≠ some (server.heap v).xdgSurface.surface) :
    (focus_view server (some v) (some (server.heap v).xdgSurface.surface)).views
        = v :: server.views.erase v ∧
      focus_at_front (focus_view server (some v) (some (server.heap v).xdgSurface.surface)) := by
  have hperm : (v :: server.views.erase v).Perm server.views := (List.perm_cons_erase hv).symm
  have hnew : (focus_view server (some v) (some (server.heap v).xdgSurface.surface)).views
      = v :: server.views.erase v := by
    rw [focus_view_views, if_neg hfoc]
  have hmem : ∀ u, u ∈ v :: server.views.erase v → u ∈ server.views :=
    fun u hu => hperm.subset hu
  refine ⟨hnew, ?_, ?_⟩
  · rw [hnew, focus_view_heap]
    intro a ha b hb hab
    exact hinj a (hmem a ha) b (hmem b hb) hab
  · rw [hnew, focus_view_heap, focus_view_focus, if_neg hfoc]
    intro u hu hsurf
    simp only [Option.some.injEq] at hsurf
    have hxdg : (server.heap v).xdgSurface = (server.heap u).xdgSurface := by
      cases hv' : (server.heap v).xdgSurface
      cases hu' : (server.heap u).xdgSurface
      rw [hv', hu'] at hsurf
      simp only at hsurf
      rw [hsurf]
    have := hinj v hv u (hmem u hu) hxdg
    rw [this]
    simp

/-- One raise call on a view of the registry, from a state in `focus_at_front`:
the view is at the front, the others keep their order, and the state is in
`focus_at_front` again. -/
theorem raise_step (server : TFWCServer D) (v : Nat) (hinv : focus_at_front server)
    (hv : v ∈ server.views) :
    (focus_view server (some v) (some (server.heap v).xdgSurface.surface)).views
        = v :: server.views.erase v ∧
      focus_at_front (focus_view server (some v) (some (server.heap v).xdgSurface.surface)) := by
  by_cases hfoc :
      server.seat.keyboard_state.focused_surface = some (server.heap v).xdgSurface.surface
  · have hhead := hinv.2 v hv hfoc
    have hviews : server.views = v :: server.views.erase v := by
      cases hl : server.views with
      | nil => rw [hl] at hv; exact absurd hv (List.not_mem_nil _)
      | cons w t =>
        rw [hl] at hhead
        simp only [List.head?_cons, Option.some.injEq] at hhead
        subst hhead
        simp
    rw [raise_guard server v hfoc]
    exact ⟨hviews, hinv⟩
  · exact raise_effective server v hinv.1 hv hfoc

/-- A sequence of raise calls on views of the registry keeps `focus_at_front`,
the memory of the views, and the set of views of the registry. -/
theorem raise_sequence_inv (seq : List Nat) :
    ∀ server : TFWCServer D, focus_at_front server → (∀ v ∈ seq, v ∈ server.views) →
      focus_at_front (raise_sequence server seq) ∧
      (raise_sequence server seq).heap = server.heap ∧
      (raise_sequence server seq).views.Perm server.views := by
  induction seq with
  | nil => intro server hinv _; exact ⟨hinv, rfl, List.Perm.refl _⟩
  | cons w rest ih =>
    intro server hinv hseq
    have hw : w ∈ server.views := hseq w (List.mem_cons_self _ _)
    obtain ⟨hviews, hinv1⟩ := raise_step server w hinv hw
    have hperm1 :
        (focus_view server (some w) (some (server.heap w).xdgSurface.surface)).views.Perm
          server.views := by
      rw [hviews]; exact (List.perm_cons_erase hw).symm
    have hseq1 : ∀ v ∈ rest,
        v ∈ (focus_view server (some w) (some (server.heap w).xdgSurface.surface)).views :=
      fun v hv => hperm1.symm.subset (hseq v (List.mem_cons_of_mem _ hv))
    obtain ⟨hinv2, hheap2, hperm2⟩ := ih _ hinv1 hseq1
    refine ⟨hinv2, ?_, hperm2.trans hperm1⟩
    show (raise_sequence _ rest).heap = server.heap
    rw [hheap2, focus_view_heap]

theorem raise_sequence_append (seq : List Nat) (V : Nat) :
    ∀ server : TFWCServer D,
      raise_sequence server (seq ++ [V]) =
        focus_view (raise_sequence server seq) (some V)
          (some ((raise_sequence server seq).heap V).xdgSurface.surface) := by
  induction seq with
  | nil => intro server; rfl
  | cons w rest ih => intro server; exact ih _

/-- C3 as stated fails: in `server_focus_behind` view 1 is in the registry behind
view 2 and its surface 11 has the keyboard focus; the raise call on view 1
returns at the test `prev_surface == surface`, so afterwards the registry is
still `[2, 1]`, view 1 is not at the front, and the hit test at (10,10), a point
view 1 contains, returns view 2. -/
theorem raise_focused_view_stays_behind :
    server_focus_behind.views = [2, 1] ∧
    (server_focus_behind.heap 1).xdgSurface.surface = 11 ∧
    (raise_sequence server_focus_behind ([] ++ [1])).views = [2, 1] ∧
    (raise_sequence server_focus_behind ([] ++ [1])).views.head? ≠ some 1 ∧
    square_surface_at (server_focus_behind.heap 1).xdgSurface
      (10 - ((server_focus_behind.heap 1).x : ℤ)) (10 - ((server_focus_behind.heap 1).y : ℤ))
        = some (11, 10, 10) ∧
    desktop_view_at square_surface_at (raise_sequence server_focus_behind ([] ++ [1])) 10 10
      = some (2, 12, 10, 10) := by
  decide

/-- A sequence of raise calls each on a view whose surface has the keyboard
focus: every call returns at the guard, the server is as before. -/
theorem raise_sequence_guard (seq : List Nat) (server : TFWCServer D)
    (hall : ∀ w ∈ seq,
      server.seat.keyboard_state.focused_surface = some (server.heap w).xdgSurface.surface) :
    raise_sequence server seq = server := by
  induction seq with
  | nil => rfl
  | cons w rest ih =>
    show raise_sequence (focus_view server (some w) _) rest = server
    rw [raise_guard server w (hall w (List.mem_cons_self _ _))]
    exact ih (fun u hu => hall u (List.mem_cons_of_mem _ hu))

/-- A sequence of raise calls on views of the registry, the views having
pairwise different xdg surfaces: the memory of the views and the set of views of
the registry are kept, and either a call has raised a view, and the state is in
`focus_at_front`, or every call has returned at the guard. -/
theorem raise_sequence_progress (seq : List Nat) :
    ∀ server : TFWCServer D,
      (∀ a ∈ server.views, ∀ b ∈ server.views,
        (server.heap a).xdgSurface = (server.heap b).xdgSurface → a = b) →
      (∀ v ∈ seq, v ∈ server.views) →
      (raise_sequence server seq).heap = server.heap ∧
      (raise_sequence server seq).views.Perm server.views ∧
      (focus_at_front (raise_sequence server seq) ∨
        (raise_sequence server seq = server ∧
          ∀ w ∈ seq, server.seat.keyboard_state.focused_surface
            = some (server.heap w).xdgSurface.surface)) := by
  induction seq with
  | nil =>
    intro server _ _
    exact ⟨rfl, List.Perm.refl _, Or.inr ⟨rfl, fun w hw => absurd hw (List.not_mem_nil _)⟩⟩
  | cons w rest ih =>
    intro server hinj hseq
    have hw : w ∈ server.views := hseq w (List.mem_cons_self _ _)
    have hrest : ∀ v ∈ rest, v ∈ server.views := fun v hv => hseq v (List.mem_cons_of_mem _ hv)
    by_cases hfoc :
        server.seat.keyboard_state.focused_surface = some (server.heap w).xdgSurface.surface
    · have hstep : raise_sequence server (w :: rest) = raise_sequence server rest := by
        show raise_sequence (focus_view server (some w) _) rest = _
        rw [raise_guard server w hfoc]
      rw [hstep]
      obtain ⟨hheap, hperm, hcase⟩ := ih server hinj hrest
      refine ⟨hheap, hperm, ?_⟩
      rcases hcase with hinv | ⟨hsame, hall⟩
      · exact Or.inl hinv
      · refine Or.inr ⟨hsame, ?_⟩
        intro u hu
        rcases List.mem_cons.mp hu with rfl | hu
        · exact hfoc
        · exact hall u hu
    · obtain ⟨hviews, hinv1⟩ := raise_effective server w hinj hw hfoc
      have hperm1 :
          (focus_view server (some w) (some (server.heap w).xdgSurface.surface)).views.Perm
            server.views := by
        rw [hviews]; exact (List.perm_cons_erase hw).symm
      have hseq1 : ∀ v ∈ rest,
          v ∈ (focus_view server (some w) (some (server.heap w).xdgSurface.surface)).views :=
        fun v hv => hperm1.symm.subset (hrest v hv)
      obtain ⟨hinv2, hheap2, hperm2⟩ := raise_sequence_inv rest _ hinv1 hseq1
      refine ⟨?_, hperm2.trans hperm1, Or.inl hinv2⟩
      show (raise_sequence _ rest).heap = server.heap
      rw [hheap2, focus_view_heap]

/-- C3, amended: take a registry whose views have pairwise different xdg
surfaces, and a sequence of raise calls on views of the registry, the last one
on `V`.  Call by call: if the surface of `V` has the keyboard focus when the last
call is made, the call returns at the guard and changes nothing; otherwise it
leaves the registry as `V` followed by the registry before it without `V`.  For
the sequence: unless the surface of `V` had the keyboard focus at the start,
every call of the sequence is on `V`, and `V` was not at the front, after the
last call the registry is `V` followed by the registry before the last call
without `V` (so `V` is at the front and the other views keep their relative
order), it is a permutation of the registry before the last call and of the
initial one, and the hit test at any point that `V` contains returns `V` with
what the geometry query gave.  In the case set aside, when the surface of `V`
had the keyboard focus at the start and every call is on `V`, the server after
the sequence is the server before it. -/
theorem raise_sequence_last_at_front [Sub D] [IntCast D] (surface_at : SurfaceAt D)
    (server : TFWCServer D) (seq : List Nat) (V : Nat)
    (hsurf : ∀ a ∈ server.views, ∀ b ∈ server.views,
      (server.heap a).xdgSurface = (server.heap b).xdgSurface → a = b)
    (hseq : ∀ v ∈ seq, v ∈ server.views) (hV : V ∈ server.views) :
    ((raise_sequence server seq).seat.keyboard_state.focused_surface
        = some (server.heap V).xdgSurface.surface →
      raise_sequence server (seq ++ [V]) = raise_sequence server seq) ∧
    ((raise_sequence server seq).seat.keyboard_state.focused_surface
        ≠ some (server.heap V).xdgSurface.surface →
      (raise_sequence server (seq ++ [V])).views
        = V :: (raise_sequence server seq).views.erase V) ∧
    ((server.seat.keyboard_state.focused_surface ≠ some (server.heap V).xdgSurface.surface ∨
        (∃ w ∈ seq, w ≠ V) ∨ server.views.head? = some V) →
      (raise_sequence server (seq ++ [V])).views
          = V :: (raise_sequence server seq).views.erase V ∧
      (raise_sequence server (seq ++ [V])).views.head? = some V ∧
      (raise_sequence server (seq ++ [V])).views.Perm (raise_sequence server seq).views ∧
      (raise_sequence server (seq ++ [V])).views.Perm server.views ∧
      (∀ lx ly r,
        surface_at (server.heap V).xdgSurface (lx - ((server.heap V).x : D))
            (ly - ((server.heap V).y : D)) = some r →
          desktop_view_at surface_at (raise_sequence server (seq ++ [V])) lx ly
            = some (V, r))) ∧
    (server.seat.keyboard_state.focused_surface = some (server.heap V).xdgSurface.surface →
      (∀ w ∈ seq, w = V) →
      raise_sequence server (seq ++ [V]) = server) := by
  obtain ⟨hheap1, hperm1, hcase⟩ := raise_sequence_progress seq server hsurf hseq
  have hV1 : V ∈ (raise_sequence server seq).views := hperm1.symm.subset hV
  have hlast : raise_sequence server (seq ++ [V])
      = focus_view (raise_sequence server seq) (some V)
          (some (server.heap V).xdgSurface.surface) := by
    rw [raise_sequence_append, hheap1]
  refine ⟨?_, ?_, ?_, ?_⟩
  · intro hfoc
    rw [hlast]
    have := raise_guard (raise_sequence server seq) V (by rw [hheap1]; exact hfoc)
    rw [hheap1] at this
    exact this
  · intro hfoc
    rw [hlast, focus_view_views, if_neg hfoc]
  · intro hcond
    have hviews : (raise_sequence server (seq ++ [V])).views
        = V :: (raise_sequence server seq).views.erase V := by
      rcases hcase with hinv | ⟨hsame, hall⟩
      · have := (raise_step (raise_sequence server seq) V hinv hV1).1
        rw [hheap1] at this
        rw [hlast]
        exact this
      · by_cases hfoc : server.seat.keyboard_state.focused_surface
            = some (server.heap V).xdgSurface.surface
        · have hhead : server.views.head? = some V := by
            rcases hcond with hne | ⟨w, hw, hwV⟩ | hhead
            · exact absurd hfoc hne
            · have hsw := hall w hw
              rw [hfoc] at hsw
              simp only [Option.some.injEq] at hsw
              have hxdg : (server.heap w).xdgSurface = (server.heap V).xdgSurface := by
                cases hw' : (server.heap w).xdgSurface
                cases hV' : (server.heap V).xdgSurface
                rw [hw', hV'] at hsw
                simp only at hsw
                rw [hsw]
              exact absurd (hsurf w (hseq w hw) V hV hxdg) hwV
            · exact hhead
          rw [hlast, hsame, raise_guard server V hfoc]
          cases hl : server.views with
          | nil => rw [hl] at hV; exact absurd hV (List.not_mem_nil _)
          | cons u t =>
            rw [hl] at hhead
            simp only [List.head?_cons, Option.some.injEq] at hhead
            subst hhead
            simp
        · rw [hlast, hsame, focus_view_views, if_neg hfoc]
    have hheap : (raise_sequence server (seq ++ [V])).heap = server.heap := by
      rw [hlast, focus_view_heap, hheap1]
    have hperm :
        (raise_sequence server (seq ++ [V])).views.Perm (raise_sequence server seq).views := by
      rw [hviews]; exact (List.perm_cons_erase hV1).symm
    refine ⟨hviews, ?_, hperm, hperm.trans hperm1, ?_⟩
    · rw [hviews]; rfl
    · intro lx ly r hr
      unfold desktop_view_at
      rw [hviews, hheap]
      unfold desktop_view_at_loop
      rw [view_at_eq, hr]
  · intro hfoc hall
    apply raise_sequence_guard
    intro w hw
    rcases List.mem_append.mp hw with hw | hw
    · rw [hall w hw]; exact hfoc
    · rw [List.mem_singleton.mp hw]; exact hfoc

/-- C3, amended, an instance: in `server_focus_behind`, where the focused view 1
stands behind view 2, the raise calls on view 2 and then on view 1 leave the
registry `[1, 2]`. -/
theorem raise_sequence_last_at_front_witness :
    (∃ w ∈ [2], w ≠ 1) ∧
    (raise_sequence server_focus_behind ([2] ++ [1])).views = [1, 2] :=
  ⟨by decide,
    ((raise_sequence_last_at_front square_surface_at server_focus_behind [2] 1
      (by decide) (by decide) (by decide)).2.2.1 (Or.inr (Or.inl (by decide)))).1⟩

/-! ### Activation -/

/-- One `focus_view` call keeps: every activated toplevel is that of the
keyboard-focused surface. -/
theorem focus_view_activated (server : TFWCServer D) (view surface : Option Nat)
    (hinv : ∀ x, server.activated x = true →
      server.seat.keyboard_state.focused_surface = some x.surface) :
    ∀ x, (focus_view server view surface).activated x = true →
      (focus_view server view surface).seat.keyboard_state.focused_surface = some x.surface := by
  intro x
  unfold focus_view
  cases view with
  | none => exact hinv x
  | some v =>
    simp only
    split
    · exact hinv x
    · cases hprev : server.seat.keyboard_state.focused_surface with
      | none =>
        simp only [wlr_seat_keyboard_notify_enter, wlr_xdg_toplevel_set_activated]
        intro hx
        by_cases hxv : x = (server.heap v).xdgSurface
        · rw [hxv]
        · rw [if_neg hxv] at hx
          have := hinv x hx
          rw [hprev] at this
          exact absurd this (by simp)
      | some p =>
        simp only [wlr_seat_keyboard_notify_enter, wlr_xdg_toplevel_set_activated]
        intro hx
        by_cases hxv : x = (server.heap v).xdgSurface
        · rw [hxv]
        · rw [if_neg hxv] at hx
          by_cases hxp : x = wlr_xdg_surface_from_wlr_surface p
          · rw [if_pos hxp] at hx
            exact absurd hx (by simp)
          · rw [if_neg hxp] at hx
            have := hinv x hx
            rw [hprev] at this
            simp only [Option.some.injEq] at this
            exact absurd (by rw [this]; rfl) hxp

theorem focus_sequence_activated (calls : List (Option Nat × Option Nat)) :
    ∀ server : TFWCServer D,
      (∀ x, server.activated x = true →
        server.seat.keyboard_state.focused_surface = some x.surface) →
      ∀ x, (focus_sequence server calls).activated x = true →
        (focus_sequence server calls).seat.keyboard_state.focused_surface = some x.surface := by
  induction calls with
  | nil => intro server hinv; exact hinv
  | cons c rest ih =>
    intro server hinv
    obtain ⟨view, surface⟩ := c
    exact ih _ (focus_view_activated server view surface hinv)

/-- The commands of a `focus_view` call that finds another surface focused. -/
theorem focus_view_calls (server : TFWCServer D) (X : Nat) (surface : Option Nat) (p : Nat)
    (hprev : server.seat.keyboard_state.focused_surface = some p) (hne : some p ≠ surface) :
    (focus_view server (some X) surface).calls =
      server.calls ++
        [wlr_call.xdg_toplevel_set_activated (wlr_xdg_surface_from_wlr_surface p) false,
         wlr_call.xdg_toplevel_set_activated (server.heap X).xdgSurface true,
         wlr_call.seat_keyboard_notify_enter (server.heap X).xdgSurface.surface] := by
  unfold focus_view
  simp only [hprev, if_neg hne, wlr_seat_keyboard_notify_enter, wlr_xdg_toplevel_set_activated,
    List.append_assoc, List.cons_append, List.nil_append]

/-- C4: from a state in which no toplevel is activated (and no surface has the
keyboard focus, which the proof does not need), after any sequence of
`focus_view` calls (with any view or `NULL`, and any surface or `NULL`) at most
one xdg surface is activated, and an activated one is that of the
keyboard-focused surface; and whenever a call of
the sequence, on a view `X`, finds a surface `p` focused that is not the surface
it is given, the commands it issues are, in this order: `p` set not activated,
`X` set activated, keyboard enter on the surface of `X`. -/
theorem focus_sequence_exclusive (server : TFWCServer D)
    (calls : List (Option Nat × Option Nat))
    (hact : ∀ x, server.activated x = false) :
    (∀ a b, (focus_sequence server calls).activated a = true →
      (focus_sequence server calls).activated b = true → a = b) ∧
    (∀ a, (focus_sequence server calls).activated a = true →
      (focus_sequence server calls).seat.keyboard_state.focused_surface = some a.surface) ∧
    (∀ done rest X surface p, calls = done ++ (some X, surface) :: rest →
      (focus_sequence server done).seat.keyboard_state.focused_surface = some p →
      some p ≠ surface →
      (focus_view (focus_sequence server done) (some X) surface).calls =
        (focus_sequence server done).calls ++
          [wlr_call.xdg_toplevel_set_activated (wlr_xdg_surface_from_wlr_surface p) false,
           wlr_call.xdg_toplevel_set_activated
             ((focus_sequence server done).heap X).xdgSurface true,
           wlr_call.seat_keyboard_notify_enter
             ((focus_sequence server done).heap X).xdgSurface.surface]) := by
  have hinv : ∀ x, server.activated x = true →
      server.seat.keyboard_state.focused_surface = some x.surface := by
    intro x hx
    rw [hact x] at hx
    exact absurd hx (by simp)
  have hfinal := focus_sequence_activated calls server hinv
  refine ⟨?_, hfinal, ?_⟩
  · intro a b ha hb
    have h1 := hfinal a ha
    have h2 := hfinal b hb
    rw [h1] at h2
    simp only [Option.some.injEq] at h2
    cases a
    cases b
    simp only at h2
    rw [h2]
  · intro done rest X surface p _ hprev hne
    exact focus_view_calls _ X surface p hprev hne

/-- C4, an instance: from `server_hidden_front`, where nothing is activated,
the calls on view 1, on view 2 and on no view leave the keyboard focus on
surface 12, the only activated one. -/
theorem focus_sequence_exclusive_witness :
    (∀ x, server_hidden_front.activated x = false) ∧
    (focus_sequence server_hidden_front
        [(some 1, some 11), (some 2, some 12), (none, none)]).activated { surface := 12 } = true ∧
    (focus_sequence server_hidden_front
        [(some 1, some 11), (some 2, some 12), (none, none)]).seat.keyboard_state.focused_surface
      = some 12 :=
  ⟨fun _ => rfl, by decide,
    (focus_sequence_exclusive server_hidden_front
      [(some 1, some 11), (some 2, some 12), (none, none)] (fun _ => rfl)).2.1
        { surface := 12 } (by decide)⟩

/-- C5 as stated fails: in `server_focused` surface 11 has the keyboard focus
and is activated, and the hit test at the cursor finds no view; after
`focus_view` with no view, and after the button handler, surface 11 still has
the keyboard focus and is still activated, and no command was sent to
deactivate it. -/
theorem focus_view_null_keeps_focus :
    server_focused.seat.keyboard_state.focused_surface = some 11 ∧
    server_focused.activated { surface := 11 } = true ∧
    (focus_view server_focused none none).seat.keyboard_state.focused_surface = some 11 ∧
    (focus_view server_focused none none).activated { surface := 11 } = true ∧
    desktop_view_at square_surface_at server_focused server_focused.cursor.x
      server_focused.cursor.y = none ∧
    (serverCursorButton square_surface_at server_focused 0 272 1).seat.keyboard_state.focused_surface
      = some 11 ∧
    (serverCursorButton square_surface_at server_focused 0 272 1).activated { surface := 11 }
      = true ∧
    (serverCursorButton square_surface_at server_focused 0 272 1).calls =
      server_focused.calls ++ [wlr_call.seat_pointer_notify_button 0 272 1] := by
  decide

/-- C5, amended: `focus_view` called with no view returns at once and leaves the
server as it was, so the surface that had the keyboard focus keeps it and stays
activated; and a button event whose hit test finds no view changes nothing but
the record of commands, to which the button notification is added. -/
theorem focus_view_null_unchanged [Sub D] [IntCast D] (surface_at : SurfaceAt D)
    (server : TFWCServer D) (surface : Option Nat) (time_msec button state : Nat) :
    focus_view server none surface = server ∧
    (desktop_view_at surface_at server server.cursor.x server.cursor.y = none →
      serverCursorButton surface_at server time_msec button state =
        { server with
          calls := server.calls ++ [wlr_call.seat_pointer_notify_button time_msec button state] }) := by
  refine ⟨rfl, ?_⟩
  intro hnone
  have hnone1 : desktop_view_at surface_at
      (wlr_seat_pointer_notify_button server time_msec button state)
      (wlr_seat_pointer_notify_button server time_msec button state).cursor.x
      (wlr_seat_pointer_notify_button server time_msec button state).cursor.y = none := hnone
  unfold serverCursorButton
  simp only [hnone1]
  rfl

/-- C5, amended, an instance: the button event in `server_focused`, whose hit
test finds no view. -/
theorem focus_view_null_unchanged_witness :
    (serverCursorButton square_surface_at server_focused 0 272 1).views = [1] :=
  congrArg TFWCServer.views
    ((focus_view_null_unchanged square_surface_at server_focused none 0 272 1).2 (by decide))

/-! ### Grab requests -/

/-- C6: a move request or a resize request for a view whose surface is not the
pointer-focused surface of the seat is dropped: the handler returns the server
it was given, so the grabbed view, `grab_x`, `grab_y`, the captured box, the
resize edges, the registry and the position of every view are as before. -/
theorem grab_request_without_pointer_focus [Sub D] [IntCast D]
    (get_geometry : wlr_xdg_surface → wlr_box) (server : TFWCServer D) (view edges : Nat)
    (hfocus : server.seat.pointer_state.focused_surface
      ≠ some (server.heap view).xdgSurface.surface) :
    xdgHandleToplevelMoveRequest server view = server ∧
    xdgHandleToplevelResizeRequest get_geometry server view edges = server := by
  have hne : some (server.heap view).xdgSurface.surface
      ≠ server.seat.pointer_state.focused_surface := fun h => hfocus h.symm
  constructor
  · unfold xdgHandleToplevelMoveRequest
    simp only [ne_eq, hne, not_false_eq_true, if_true]
  · unfold xdgHandleToplevelResizeRequest
    simp only [ne_eq, hne, not_false_eq_true, if_true]

/-- C6, an instance: in `server_pointer_on_2` the pointer focus is on surface 12,
and the requests of view 1, whose surface is 11, leave no grab. -/
theorem grab_request_without_pointer_focus_witness :
    server_pointer_on_2.seat.pointer_state.focused_surface = some 12 ∧
    (server_pointer_on_2.heap 1).xdgSurface.surface = 11 ∧
    (xdgHandleToplevelMoveRequest server_pointer_on_2 1).grabbed_view = none ∧
    (xdgHandleToplevelResizeRequest square_get_geometry server_pointer_on_2 1
      WLR_EDGE_RIGHT).grabbed_view = none :=
  ⟨by decide, by decide,
    congrArg TFWCServer.grabbed_view
      (grab_request_without_pointer_focus square_get_geometry server_pointer_on_2 1
        WLR_EDGE_RIGHT (by decide)).1,
    congrArg TFWCServer.grabbed_view
      (grab_request_without_pointer_focus square_get_geometry server_pointer_on_2 1
        WLR_EDGE_RIGHT (by decide)).2⟩

/-- C7 as stated fails: `server_resize_grab` holds a resize grab on view 1
(anchor (-50,-50), box (0,0,100,100), edges right and bottom).  A move request of
view 1, whose surface has the pointer focus, replaces the anchor by (50,50); and
after a pointer motion to (120,120), which gives the pointer focus to surface 12
and leaves the grab as it was, a move request of view 2 replaces the grabbed
view by view 2 and the anchor by (70,70). -/
theorem move_request_overwrites_resize_grab :
    server_resize_grab.grabbed_view = some 1 ∧
    server_resize_grab.grab_x = -50 ∧ server_resize_grab.grab_y = -50 ∧
    server_resize_grab.grab_geobox = { x := 0, y := 0, width := 100, height := 100 } ∧
    server_resize_grab.resize_edges = 10 ∧
    (xdgHandleToplevelMoveRequest server_resize_grab 1).grab_x = 50 ∧
    (xdgHandleToplevelMoveRequest server_resize_grab 1).grab_y = 50 ∧
    (serverCursorMotionAbsolute square_surface_at server_resize_grab
      { x := 120, y := 120 } 1).seat.pointer_state.focused_surface = some 12 ∧
    (serverCursorMotionAbsolute square_surface_at server_resize_grab
      { x := 120, y := 120 } 1).grabbed_view = some 1 ∧
    (xdgHandleToplevelMoveRequest
      (serverCursorMotionAbsolute square_surface_at server_resize_grab
        { x := 120, y := 120 } 1) 2).grabbed_view = some 2 ∧
    (xdgHandleToplevelMoveRequest
      (serverCursorMotionAbsolute square_surface_at server_resize_grab
        { x := 120, y := 120 } 1) 2).grab_x = 70 ∧
    (xdgHandleToplevelMoveRequest
      (serverCursorMotionAbsolute square_surface_at server_resize_grab
        { x := 120, y := 120 } 1) 2).grab_y = 70 := by
  decide

/-- C7, amended: a grab request of the view whose surface has the pointer focus
is carried out whatever grab is active.  A move request makes the requesting
view the grabbed view and sets `grab_x` and `grab_y` to the cursor position
minus the view position, and leaves only the captured box and the resize edges
as they were; a resize request makes the requesting view the grabbed view and
stores the edges it carries. -/
theorem grab_request_replaces_grab [Sub D] [IntCast D]
    (get_geometry : wlr_xdg_surface → wlr_box) (server : TFWCServer D) (view edges : Nat)
    (hfocus : server.seat.pointer_state.focused_surface
      = some (server.heap view).xdgSurface.surface) :
    (xdgHandleToplevelMoveRequest server view).grabbed_view = some view ∧
    (xdgHandleToplevelMoveRequest server view).grab_x
      = server.cursor.x - ((server.heap view).x : D) ∧
    (xdgHandleToplevelMoveRequest server view).grab_y
      = server.cursor.y - ((server.heap view).y : D) ∧
    (xdgHandleToplevelMoveRequest server view).grab_geobox = server.grab_geobox ∧
    (xdgHandleToplevelMoveRequest server view).resize_edges = server.resize_edges ∧
    (xdgHandleToplevelResizeRequest get_geometry server view edges).grabbed_view = some view ∧
    (xdgHandleToplevelResizeRequest get_geometry server view edges).resize_edges = edges := by
  unfold xdgHandleToplevelMoveRequest xdgHandleToplevelResizeRequest
  simp only [hfocus, ne_eq, not_true_eq_false, if_false, and_self]

/-- C7, amended, an instance: the move request of view 1 in
`server_resize_grab`. -/
theorem grab_request_replaces_grab_witness :
    (xdgHandleToplevelMoveRequest server_resize_grab 1).grab_x = 50 - 0 :=
  (grab_request_replaces_grab square_get_geometry server_resize_grab 1 0 (by decide)).2.1

/-- C8, the code at the failing input: `server_move_grab` holds a grab on view
1, a view of the registry; after the destroy handler for view 1 the registry is
`[2]`, without view 1, and the grabbed view is still view 1. -/
theorem destroy_keeps_grab_target :
    server_move_grab.views = [1, 2] ∧
    server_move_grab.grabbed_view = some 1 ∧
    (xdgDestroyWindow server_move_grab 1).views = [2] ∧
    (xdgDestroyWindow server_move_grab 1).grabbed_view = some 1 := by
  decide

/-- Pointer motion writes neither the memory of the views nor the registry nor
the grab fields. -/
theorem processCursorMotion_keeps_views [Sub D] [IntCast D] (surface_at : SurfaceAt D)
    (server : TFWCServer D) (time : Nat) :
    (processCursorMotion surface_at server time).heap = server.heap ∧
    (processCursorMotion surface_at server time).views = server.views ∧
    (processCursorMotion surface_at server time).grabbed_view = server.grabbed_view ∧
    (processCursorMotion surface_at server time).cursor = server.cursor := by
  unfold processCursorMotion
  cases desktop_view_at surface_at server server.cursor.x server.cursor.y with
  | none => exact ⟨rfl, rfl, rfl, rfl⟩
  | some r => exact ⟨rfl, rfl, rfl, rfl⟩

/-- C9, the code at the failing input: `server_move_grab` holds the grab of view
1, which is at (0,0), with the anchor (50,50) taken at the cursor position
(50,50); after the pointer motion to (60,65), absolute or relative, the grab is
still that one and the cursor is at (60,65), but view 1 is still at (0,0) and not
at the cursor position minus the anchor, (10,15). -/
theorem motion_does_not_move_grabbed_view :
    (server_pointer_on_1.heap 1).x = 0 ∧ (server_pointer_on_1.heap 1).y = 0 ∧
    server_pointer_on_1.cursor.x = 50 ∧ server_pointer_on_1.cursor.y = 50 ∧
    server_pointer_on_1.seat.pointer_state.focused_surface = some 11 ∧
    server_move_grab.grabbed_view = some 1 ∧
    server_move_grab.grab_x = 50 ∧ server_move_grab.grab_y = 50 ∧
    (serverCursorMotionAbsolute square_surface_at server_move_grab
      { x := 60, y := 65 } 1).grabbed_view = some 1 ∧
    (serverCursorMotionAbsolute square_surface_at server_move_grab
      { x := 60, y := 65 } 1).cursor.x
      - (serverCursorMotionAbsolute square_surface_at server_move_grab
          { x := 60, y := 65 } 1).grab_x = 10 ∧
    (serverCursorMotionAbsolute square_surface_at server_move_grab
      { x := 60, y := 65 } 1).cursor.y
      - (serverCursorMotionAbsolute square_surface_at server_move_grab
          { x := 60, y := 65 } 1).grab_y = 15 ∧
    ((serverCursorMotionAbsolute square_surface_at server_move_grab
      { x := 60, y := 65 } 1).heap 1).x = 0 ∧
    ((serverCursorMotionAbsolute square_surface_at server_move_grab
      { x := 60, y := 65 } 1).heap 1).y = 0 ∧
    ((serverCursorMotion square_surface_at server_move_grab
      { x := 60, y := 65 } 1).heap 1).x = 0 ∧
    ((serverCursorMotion square_surface_at server_move_grab
      { x := 60, y := 65 } 1).heap 1).y = 0 := by
  decide

/-- C10: a move request of the view whose surface has the pointer focus makes
that view the grabbed view and sets `grab_x` to the cursor's x minus the view's
x and `grab_y` to the cursor's y minus the view's y; the memory of the views (so
the position and the mapped flag of the view) and the registry are as before. -/
theorem move_request_captures_anchor [Sub D] [IntCast D] (server : TFWCServer D) (view : Nat)
    (hfocus : server.seat.pointer_state.focused_surface
      = some (server.heap view).xdgSurface.surface) :
    (xdgHandleToplevelMoveRequest server view).grabbed_view = some view ∧
    (xdgHandleToplevelMoveRequest server view).grab_x
      = server.cursor.x - ((server.heap view).x : D) ∧
    (xdgHandleToplevelMoveRequest server view).grab_y
      = server.cursor.y - ((server.heap view).y : D) ∧
    ((xdgHandleToplevelMoveRequest server view).heap view).x = (server.heap view).x ∧
    ((xdgHandleToplevelMoveRequest server view).heap view).y = (server.heap view).y ∧
    ((xdgHandleToplevelMoveRequest server view).heap view).mapped = (server.heap view).mapped ∧
    (xdgHandleToplevelMoveRequest server view).heap = server.heap ∧
    (xdgHandleToplevelMoveRequest server view).views = server.views := by
  unfold xdgHandleToplevelMoveRequest
  simp only [hfocus, ne_eq, not_true_eq_false, if_false, and_self]

/-- C10, an instance: in `server_pointer_on_1` the cursor is at (50,50) and
view 1, at (0,0), has the pointer focus; its move request gives the anchor
(50,50). -/
theorem move_request_captures_anchor_witness :
    server_pointer_on_1.seat.pointer_state.focused_surface
      = some (server_pointer_on_1.heap 1).xdgSurface.surface ∧
    (xdgHandleToplevelMoveRequest server_pointer_on_1 1).grabbed_view = some 1 ∧
    (xdgHandleToplevelMoveRequest server_pointer_on_1 1).grab_x = 50 - 0 :=
  ⟨by decide, (move_request_captures_anchor server_pointer_on_1 1 (by decide)).1,
    (move_request_captures_anchor server_pointer_on_1 1 (by decide)).2.1⟩

/-- The test `edges & WLR_EDGE_RIGHT` of the source reads bit 3 of the mask, the
test `edges & WLR_EDGE_BOTTOM` bit 1. -/
theorem edge_tests (edges : Nat) :
    (edges &&& WLR_EDGE_RIGHT ≠ 0 ↔ edges.testBit 3 = true) ∧
    (edges &&& WLR_EDGE_BOTTOM ≠ 0 ↔ edges.testBit 1 = true) := by
  have key : ∀ i : Nat, edges &&& 2 ^ i ≠ 0 ↔ edges.testBit i = true := by
    intro i
    constructor
    · intro hne
      by_contra hbit
      apply hne
      apply Nat.eq_of_testBit_eq
      intro j
      rw [Nat.testBit_and, Nat.testBit_two_pow, Nat.zero_testBit]
      by_cases hij : i = j
      · subst hij
        simp only [Bool.not_eq_true] at hbit
        rw [hbit]
        rfl
      · simp [hij]
    · intro hbit hzero
      have := congrArg (fun n => Nat.testBit n i) hzero
      simp only [Nat.testBit_and, Nat.testBit_two_pow_self, Nat.zero_testBit, hbit] at this
      exact absurd this (by decide)
  exact ⟨key 3, key 1⟩

/-- C11: a resize request with the edge mask `edges`, of the view whose surface
has the pointer focus, the geometry box of its xdg surface being `b` at that
time: the view becomes the grabbed view, `edges` the resize edges, the captured
box is `b` moved by the position of the view (`x = b.x + view.x`,
`y = b.y + view.y`, width and height those of `b`), `grab_x` is the cursor's x
minus `view.x + b.x`, plus `b.width` when `edges` has the right edge, and
`grab_y` is the cursor's y minus `view.y + b.y`, plus `b.height` when `edges` has
the bottom edge.  The sums of `int`s are taken in the integers. -/
theorem resize_request_captures_box [Sub D] [IntCast D]
    (get_geometry : wlr_xdg_surface → wlr_box) (server : TFWCServer D) (view edges : Nat)
    (hfocus : server.seat.pointer_state.focused_surface
      = some (server.heap view).xdgSurface.surface) :
    (xdgHandleToplevelResizeRequest get_geometry server view edges).grabbed_view = some view ∧
    (xdgHandleToplevelResizeRequest get_geometry server view edges).resize_edges = edges ∧
    (xdgHandleToplevelResizeRequest get_geometry server view edges).grab_geobox =
      { x := (get_geometry (server.heap view).xdgSurface).x + (server.heap view).x
        y := (get_geometry (server.heap view).xdgSurface).y + (server.heap view).y
        width := (get_geometry (server.heap view).xdgSurface).width
        height := (get_geometry (server.heap view).xdgSurface).height } ∧
    (xdgHandleToplevelResizeRequest get_geometry server view edges).grab_x =
      server.cursor.x -
        (((server.heap view).x + (get_geometry (server.heap view).xdgSurface).x
          + (if edges.testBit 3 = true then (get_geometry (server.heap view).xdgSurface).width
             else 0) : Int) : D) ∧
    (xdgHandleToplevelResizeRequest get_geometry server view edges).grab_y =
      server.cursor.y -
        (((server.heap view).y + (get_geometry (server.heap view).xdgSurface).y
          + (if edges.testBit 1 = true then (get_geometry (server.heap view).xdgSurface).height
             else 0) : Int) : D) := by
  unfold xdgHandleToplevelResizeRequest
  simp only [hfocus, ne_eq, not_true_eq_false, if_false, true_and]
  refine ⟨?_, ?_⟩
  · by_cases h : edges.testBit 3 = true
    · have h' : ¬ (edges &&& WLR_EDGE_RIGHT = 0) := (edge_tests edges).1.mpr h
      rw [if_pos h', if_pos h]
    · have h' : ¬ ¬ (edges &&& WLR_EDGE_RIGHT = 0) := fun hn => h ((edge_tests edges).1.mp hn)
      rw [if_neg h', if_neg h]
  · by_cases h : edges.testBit 1 = true
    · have h' : ¬ (edges &&& WLR_EDGE_BOTTOM = 0) := (edge_tests edges).2.mpr h
      rw [if_pos h', if_pos h]
    · have h' : ¬ ¬ (edges &&& WLR_EDGE_BOTTOM = 0) := fun hn => h ((edge_tests edges).2.mp hn)
      rw [if_neg h', if_neg h]

/-- C11, an instance: in `server_pointer_on_1` the cursor is at (50,50) and view
1, at (0,0) with the box (0,0,100,100), has the pointer focus; its resize request
by the right and bottom edges gives the anchor (-50,-50). -/
theorem resize_request_captures_box_witness :
    server_pointer_on_1.seat.pointer_state.focused_surface
      = some (server_pointer_on_1.heap 1).xdgSurface.surface ∧
    (xdgHandleToplevelResizeRequest square_get_geometry server_pointer_on_1 1 10).grabbed_view
      = some 1 ∧
    (xdgHandleToplevelResizeRequest square_get_geometry server_pointer_on_1 1 10).grab_x
      = -50 :=
  ⟨by decide,
    (resize_request_captures_box square_get_geometry server_pointer_on_1 1 10 (by decide)).1,
    (resize_request_captures_box square_get_geometry server_pointer_on_1 1 10
      (by decide)).2.2.2.1⟩

/-! ### Rendering -/

theorem submitted_views_append (a b : List (wlr_call D)) :
    submitted_views (a ++ b) = submitted_views a ++ submitted_views b := by
  induction a with
  | nil => rfl
  | cons c rest ih =>
    cases c <;> first | exact ih | exact congrArg (List.cons _) ih

/-- The callback `renderWindow` writes neither the registry nor the memory of the
views, and submits no view. -/
theorem renderWindow_frame [Add D] [Mul D] [IntCast D] (env : render_env D)
    (server : TFWCServer D) (view surface : Nat) (sx sy : Int) :
    (renderWindow env server view surface sx sy).views = server.views ∧
    (renderWindow env server view surface sx sy).heap = server.heap ∧
    submitted_views (renderWindow env server view surface sx sy).calls
      = submitted_views server.calls := by
  unfold renderWindow
  cases env.get_texture surface with
  | none => exact ⟨rfl, rfl, rfl⟩
  | some texture =>
    refine ⟨rfl, rfl, ?_⟩
    simp only [submitted_views_append, submitted_views, List.append_nil]

theorem for_each_surface_loop_frame [Add D] [Mul D] [IntCast D] (env : render_env D)
    (view : Nat) (surfaces : List (Nat × Int × Int)) :
    ∀ server : TFWCServer D,
      (for_each_surface_loop env view server surfaces).views = server.views ∧
      (for_each_surface_loop env view server surfaces).heap = server.heap ∧
      submitted_views (for_each_surface_loop env view server surfaces).calls
        = submitted_views server.calls := by
  induction surfaces with
  | nil => intro server; exact ⟨rfl, rfl, rfl⟩
  | cons c rest ih =>
    intro server
    obtain ⟨surface, sx, sy⟩ := c
    obtain ⟨h1, h2, h3⟩ := ih (renderWindow env server view surface sx sy)
    obtain ⟨g1, g2, g3⟩ := renderWindow_frame env server view surface sx sy
    exact ⟨h1.trans g1, h2.trans g2, h3.trans g3⟩

/-- The iteration over the surfaces of a view submits that view, once. -/
theorem for_each_surface_frame [Add D] [Mul D] [IntCast D] (env : render_env D)
    (server : TFWCServer D) (view : Nat) :
    (wlr_xdg_surface_for_each_surface env server view).views = server.views ∧
    (wlr_xdg_surface_for_each_surface env server view).heap = server.heap ∧
    submitted_views (wlr_xdg_surface_for_each_surface env server view).calls
      = submitted_views server.calls ++ [view] := by
  unfold wlr_xdg_surface_for_each_surface
  obtain ⟨h1, h2, h3⟩ := for_each_surface_loop_frame env view
    (env.surfaces (server.heap view).xdgSurface)
    { server with
      calls := server.calls ++
        [wlr_call.xdg_surface_for_each_surface (server.heap view).xdgSurface view] }
  refine ⟨h1, h2, ?_⟩
  rw [h3]
  simp only [submitted_views_append, submitted_views]

theorem renderScreen_loop_frame [Add D] [Mul D] [IntCast D] (env : render_env D)
    (views : List Nat) :
    ∀ server : TFWCServer D,
      (renderScreen_loop env server views).views = server.views ∧
      (renderScreen_loop env server views).heap = server.heap ∧
      submitted_views (renderScreen_loop env server views).calls
        = submitted_views server.calls
          ++ views.filter (fun view => (server.heap view).mapped) := by
  induction views with
  | nil => intro server; exact ⟨rfl, rfl, by simp [renderScreen_loop]⟩
  | cons v rest ih =>
    intro server
    unfold renderScreen_loop
    cases hm : (server.heap v).mapped with
    | false =>
      simp only [Bool.not_false, if_true]
      obtain ⟨h1, h2, h3⟩ := ih server
      refine ⟨h1, h2, ?_⟩
      rw [h3, List.filter_cons_of_neg (by simp [hm])]
    | true =>
      simp only [Bool.not_true, Bool.false_eq_true, if_false]
      obtain ⟨g1, g2, g3⟩ := for_each_surface_frame env server v
      obtain ⟨h1, h2, h3⟩ := ih (wlr_xdg_surface_for_each_surface env server v)
      refine ⟨h1.trans g1, h2.trans g2, ?_⟩
      rw [h3, g3, g2, List.filter_cons_of_pos (by simp [hm]), List.append_assoc]
      rfl

/-- C12: one run of `renderScreen` leaves the registry and the memory of the
views (so the position and the mapped flag of every view) as they were.  When
the render buffer of the output is attached, the views it submits for drawing
are, after those of the record so far, exactly the mapped views of the registry
in reverse registry order, so back to front with the front mapped view last; a
view with `mapped = false` is not among them.  When the buffer is not attached,
the handler returns before the pass and submits nothing. -/
theorem renderScreen_back_to_front [Add D] [Mul D] [IntCast D] (env : render_env D)
    (server : TFWCServer D) :
    (renderScreen env server).views = server.views ∧
    (renderScreen env server).heap = server.heap ∧
    (env.attach_render = true →
      submitted_views (renderScreen env server).calls
        = submitted_views server.calls
          ++ (server.views.filter (fun view => (server.heap view).mapped)).reverse) ∧
    (∀ view, (server.heap view).mapped = false →
      view ∉ (server.views.filter (fun view => (server.heap view).mapped)).reverse) ∧
    (env.attach_render = false →
      submitted_views (renderScreen env server).calls = submitted_views server.calls) := by
  unfold renderScreen
  cases hatt : env.attach_render with
  | false =>
    refine ⟨rfl, rfl, fun h => absurd h (by simp), ?_, fun _ => ?_⟩
    · intro view hview hmem
      rw [List.mem_reverse, List.mem_filter, hview] at hmem
      exact absurd hmem.2 (by simp)
    · simp only [Bool.not_false, if_true, submitted_views_append, submitted_views,
        List.append_nil]
  | true =>
    obtain ⟨h1, h2, h3⟩ := renderScreen_loop_frame env server.views.reverse
      { server with
        calls := server.calls ++ [wlr_call.output_attach_render true] ++
          [wlr_call.renderer_begin env.effective_width env.effective_height,
           wlr_call.renderer_clear] }
    refine ⟨h1, h2, fun _ => ?_, ?_, fun h => absurd h (by simp)⟩
    · have h3' := h3
      simp only [submitted_views_append, submitted_views, List.append_nil,
        List.filter_reverse] at h3'
      simp only [Bool.not_true, Bool.false_eq_true, if_false, submitted_views_append,
        submitted_views, List.append_nil]
      exact h3'
    · intro view hview hmem
      rw [List.mem_reverse, List.mem_filter, hview] at hmem
      exact absurd hmem.2 (by simp)

/-- C12, an instance: in `server_hidden_front`, whose registry is `[2, 1]` with
view 2 unmapped, a frame submits view 1 only; in `server_overlap`, whose
registry is `[1, 2]` with both views mapped, a frame submits view 2 and then
view 1. -/
theorem renderScreen_back_to_front_witness :
    submitted_views (renderScreen square_render_env server_hidden_front).calls = [1] ∧
    submitted_views (renderScreen square_render_env server_overlap).calls = [2, 1] :=
  ⟨(renderScreen_back_to_front square_render_env server_hidden_front).2.2.1 rfl,
    (renderScreen_back_to_front square_render_env server_overlap).2.2.1 rfl⟩

end Claims

end TFWC
